import Mathlib

/-!
Shallow embedding of the core pipeline of
`src/download_gopro_media_selenium.py`: the page fetcher (`fetch_page`),
the URL extractor (`extract_downloads`, `pick_filename`), the downloader
(`download_one`) and the enumeration/dispatch loops of `main`.

Python JSON values are modelled by the inductive `JVal`; Python dicts are
association lists with first-match lookup (Python dicts have unique keys,
so first-match agrees with dict semantics on all states reachable from
Python).  Python exceptions are modelled by `Except PyErr`.  The standard
library helpers used by the source are modelled faithfully for their
actually exercised input domain:

* `urlparse(url).path` is modelled for URLs made of printable characters,
  free of tab/CR/LF (which CPython strips), of square brackets (whose
  validation can raise) and of ";" (CPython splits trailing ";params" for
  a fixed scheme list); none of these occur in the claims.
* `int(s)` is modelled for optionally signed decimal strings with
  surrounding ASCII whitespace (numeric-literal underscores unmodelled).
* `repr` of strings is modelled without escaping (accurate for strings
  free of quotes, backslashes and control characters).
-/

/-- Model of a Python/JSON value as produced by `resp.json()`. -/
inductive JVal where
  | null
  | bool (b : Bool)
  | num (n : Int)
  | str (s : String)
  | arr (xs : List JVal)
  | obj (kvs : List (String × JVal))

/-- Model of a Python exception class, as far as the embedded code can raise. -/
inductive PyErr where
  | typeErr
  | attrErr
  | valueErr
  | keyErr
deriving DecidableEq

/-- Python truthiness of a `JVal` (`bool(x)`). -/
def JVal.truthy : JVal → Bool
  | .null => false
  | .bool b => b
  | .num n => decide (n ≠ 0)
  | .str s => !s.isEmpty
  | .arr xs => !xs.isEmpty
  | .obj kvs => !kvs.isEmpty

/-- Python `a or b` on values: `a` if truthy, else `b`. -/
def pyOr (a b : JVal) : JVal := if a.truthy then a else b

/-- First-match lookup in a dict, modelling `d[k]` presence (`d.get(k)` is
`(lookupJ d k).getD .null` since Python returns `None` when absent). -/
def lookupJ (kvs : List (String × JVal)) (k : String) : Option JVal :=
  match kvs with
  | [] => none
  | (k2, v) :: rest => if k2 = k then some v else lookupJ rest k

/-- Python `d.get(k)` with `None` (= `JVal.null`) default. -/
def getd (kvs : List (String × JVal)) (k : String) : JVal :=
  (lookupJ kvs k).getD .null

/-- Single-quote character, used by the Python repr of strings. -/
def squo : String := String.singleton (Char.ofNat 39)

mutual

/-- Python `repr` of a value (strings rendered without escaping). -/
def pyRepr : JVal → String
  | .null => "None"
  | .bool true => "True"
  | .bool false => "False"
  | .num n => toString n
  | .str s => squo ++ s ++ squo
  | .arr xs => "[" ++ pyReprList xs ++ "]"
  | .obj kvs => "\x7b" ++ pyReprObj kvs ++ "\x7d"

/-- Comma-separated reprs of the elements of a list. -/
def pyReprList : List JVal → String
  | [] => ""
  | [x] => pyRepr x
  | x :: y :: xs => pyRepr x ++ ", " ++ pyReprList (y :: xs)

/-- Comma-separated reprs of the entries of a dict. -/
def pyReprObj : List (String × JVal) → String
  | [] => ""
  | [(k, v)] => squo ++ k ++ squo ++ ": " ++ pyRepr v
  | (k, v) :: e :: kvs => squo ++ k ++ squo ++ ": " ++ pyRepr v ++ ", " ++ pyReprObj (e :: kvs)

end

/-- Python `str(x)` (used by the f-string in `pick_filename`). -/
def pyStr : JVal → String
  | .str s => s
  | v => pyRepr v

/-- Characters allowed in a URL scheme (`urllib.parse.scheme_chars`). -/
def schemeChar (c : Char) : Bool :=
  c.isAlpha || c.isDigit || c = '+' || c = '-' || c = '.'

/-- Split a character list at the first occurrence of `c`: the part before,
and (when `c` occurs) the part after. -/
def splitAtFirst (c : Char) : List Char → List Char × Option (List Char)
  | [] => ([], none)
  | x :: xs =>
    if x = c then ([], some xs)
    else
      let r := splitAtFirst c xs
      (x :: r.1, r.2)

/-- Scheme removal step of `urlsplit`: if the text before the first ":" is a
non-empty valid scheme starting with a letter, drop it (with the colon). -/
def stripScheme (l : List Char) : List Char :=
  match splitAtFirst ':' l with
  | (before, some after) =>
    match before with
    | [] => l
    | c0 :: _ => if c0.isAlpha && before.all schemeChar then after else l
  | (_, none) => l

/-- Netloc removal step of `urlsplit`: drop characters up to (excluding) the
first of "/", "?" or "#". -/
def dropNetloc : List Char → List Char
  | [] => []
  | c :: cs => if c = '/' ∨ c = '?' ∨ c = '#' then c :: cs else dropNetloc cs

/-- Model of `urllib.parse.urlparse(url).path` (see the file header for the
modelled input domain). -/
def urlparsePath (url : String) : String :=
  let u1 := stripScheme url.data
  let u2 :=
    match u1 with
    | '/' :: '/' :: rest => dropNetloc rest
    | _ => u1
  let u3 := (splitAtFirst '#' u2).1
  let u4 := (splitAtFirst '?' u3).1
  String.mk u4

/-- Split a character list on every occurrence of `c`. -/
def splitAll (c : Char) : List Char → List (List Char)
  | [] => [[]]
  | x :: xs =>
    match splitAll c xs with
    | [] => [[]]
    | h :: t => if x = c then [] :: h :: t else (x :: h) :: t

/-- Model of `pathlib.Path(p).name` on POSIX: the last component after
dropping empty and "." components, or the empty string. -/
def pathName (p : String) : String :=
  let comps := (splitAll '/' p.data).filter (fun cmp => cmp ≠ [] ∧ cmp ≠ ['.'])
  match comps.getLast? with
  | some cmp => String.mk cmp
  | none => ""

/-- Embedding of `pick_filename` (source lines 497 to 502): the last path
segment of the URL, else the f-string of `media.get("id", int(time.time()))`;
`now` stands for `int(time.time())`. -/
def pick_filename (url : String) (media : List (String × JVal)) (now : Int) : String :=
  let name := pathName (urlparsePath url)
  if name = "" then
    match lookupJ media "id" with
    | some v => pyStr v
    | none => pyStr (.num now)
  else name

example : pick_filename "https://h.example/a/b.mp4?sig=1" [] 0 = "b.mp4" := by rfl
example : pick_filename "https://h.example" [("id", .str "X7")] 0 = "X7" := by rfl
example : pick_filename "https://h.example/" [] 17 = toString (17 : Int) := by
  simp [pick_filename, lookupJ, pyStr, pyRepr,
    show pathName (urlparsePath "https://h.example/") = "" from rfl]

/-- Embedding of the local `add_candidate` closure inside `extract_downloads`
(source lines 508 to 510): a truthy URL value contributes one candidate;
`urlparse` on a truthy non-string raises (AttributeError in `_decode_args`). -/
def add_candidate (media : List (String × JVal)) (now : Int) (u : JVal) :
    Except PyErr (List (String × String)) :=
  if u.truthy then
    match u with
    | .str s => .ok [(s, pick_filename s media now)]
    | _ => .error .attrErr
  else .ok []

/-- The `url or download_url or downloadUrl` chain applied to one entry dict
(source lines 517 to 521 and 529). -/
def entryUrl (ek : List (String × JVal)) : JVal :=
  pyOr (getd ek "url") (pyOr (getd ek "download_url") (getd ek "downloadUrl"))

/-- Tier 1 of `extract_downloads` (source lines 512 to 513): the top-level
keys "download_url", "downloadUrl", "url" in order. -/
def tier1 (media : List (String × JVal)) (now : Int) :
    Except PyErr (List (String × String)) := do
  let a ← add_candidate media now (getd media "download_url")
  let b ← add_candidate media now (getd media "downloadUrl")
  let c ← add_candidate media now (getd media "url")
  pure (a ++ b ++ c)

/-- The `for file_entry in files` loop body (source lines 516 to 522):
entries must be dicts (`.get` on anything else raises AttributeError). -/
def filesCandidates (media : List (String × JVal)) (now : Int) :
    List JVal → Except PyErr (List (String × String))
  | [] => .ok []
  | e :: rest =>
    match e with
    | .obj ek => do
      let c ← add_candidate media now (entryUrl ek)
      let r ← filesCandidates media now rest
      pure (c ++ r)
    | _ => .error .attrErr

/-- Tier 2 of `extract_downloads` (source lines 515 to 522): iterate
`media.get("files") or media.get("media_files") or []`.  Iterating a string
yields characters and a dict yields keys, whose `.get` raises AttributeError;
None, bools and numbers are not iterable (TypeError). -/
def tier2 (media : List (String × JVal)) (now : Int) :
    Except PyErr (List (String × String)) :=
  match pyOr (getd media "files") (pyOr (getd media "media_files") (JVal.arr [])) with
  | .arr xs => filesCandidates media now xs
  | .str s => if s.isEmpty then .ok [] else .error .attrErr
  | .obj kvs => if kvs.isEmpty then .ok [] else .error .attrErr
  | _ => .error .typeErr

/-- The inner `for entry in variant` loop (source lines 531 to 538):
non-dict entries are silently skipped by the `isinstance` guard. -/
def variantListCandidates (media : List (String × JVal)) (now : Int) :
    List JVal → Except PyErr (List (String × String))
  | [] => .ok []
  | e :: rest =>
    match e with
    | .obj ek => do
      let c ← add_candidate media now (entryUrl ek)
      let r ← variantListCandidates media now rest
      pure (c ++ r)
    | _ => variantListCandidates media now rest

/-- The `for variant in versions.values()` loop (source lines 526 to 538):
a dict variant contributes its URL chain, a list variant its dict entries,
anything else is skipped. -/
def versionsCandidates (media : List (String × JVal)) (now : Int) :
    List (String × JVal) → Except PyErr (List (String × String))
  | [] => .ok []
  | (_, var) :: rest => do
    let c ←
      match var with
      | .obj vk => add_candidate media now (entryUrl vk)
      | .arr es => variantListCandidates media now es
      | _ => .ok []
    let r ← versionsCandidates media now rest
    pure (c ++ r)

/-- Tier 3 of `extract_downloads` (source lines 524 to 538): the
`versions or derived_media` mapping, guarded by `isinstance(versions, dict)`. -/
def tier3 (media : List (String × JVal)) (now : Int) :
    Except PyErr (List (String × String)) :=
  match pyOr (getd media "versions") (pyOr (getd media "derived_media") (JVal.obj [])) with
  | .obj vs => versionsCandidates media now vs
  | _ => .ok []

/-- The raw `downloads` list of `extract_downloads` before deduplication
(source lines 506 to 538): the three tiers appended in order.  Splitting the
single pass into three tiers is sound because the loops only append. -/
def extract_raw (media : List (String × JVal)) (now : Int) :
    Except PyErr (List (String × String)) := do
  let a ← tier1 media now
  let b ← tier2 media now
  let c ← tier3 media now
  pure (a ++ b ++ c)

/-- The dedup pass of `extract_downloads` (source lines 540 to 546) with its
`seen` set made explicit. -/
def dedupGo (seen : List String) : List (String × String) → List (String × String)
  | [] => []
  | (u, f) :: rest =>
    if seen.contains u then dedupGo seen rest
    else (u, f) :: dedupGo (u :: seen) rest

/-- Deduplication by exact URL string keeping the first occurrence. -/
def dedupFirst (l : List (String × String)) : List (String × String) :=
  dedupGo [] l

/-- Embedding of `extract_downloads` (source lines 505 to 546) on a media
dict; `now` stands for `int(time.time())` inside `pick_filename`. -/
def extract_downloads (media : List (String × JVal)) (now : Int) :
    Except PyErr (List (String × String)) := do
  let l ← extract_raw media now
  pure (dedupFirst l)

/-- Lift of `extract_downloads` to an arbitrary record value: `media.get`
on a non-dict raises AttributeError. -/
def extract_downloads_v (media : JVal) (now : Int) :
    Except PyErr (List (String × String)) :=
  match media with
  | .obj kvs => extract_downloads kvs now
  | _ => .error .attrErr

example :
    extract_downloads
      [("url", .str "https://h.example/a/top.mp4"),
       ("files", .arr [.obj [("url", .str "https://h.example/a/top.mp4")]])] 0 =
    .ok [("https://h.example/a/top.mp4", "top.mp4")] := by rfl

example : extract_downloads [("files", .num 5)] 0 = .error .typeErr := by rfl

example :
    extract_downloads
      [("url", .str "https://h.example/t1.mp4"),
       ("files", .arr [.obj [("url", .str "https://h.example/t2.mp4")]]),
       ("versions", .obj [("hd", .obj [("url", .str "https://h.example/t3.mp4")])])] 0 =
    .ok [("https://h.example/t1.mp4", "t1.mp4"),
         ("https://h.example/t2.mp4", "t2.mp4"),
         ("https://h.example/t3.mp4", "t3.mp4")] := by rfl

/-- Python `x == k` for a string literal `k`: only equal strings compare
equal (str never equals non-str values). -/
def jvalIsStrEq (v : JVal) (k : String) : Bool :=
  match v with
  | .str s => s = k
  | _ => false

/-- Substring test helper: does the second list start with the first. -/
def startsW : List Char → List Char → Bool
  | [], _ => true
  | _ :: _, [] => false
  | a :: as, b :: bs => a = b && startsW as bs

/-- Python `needle in haystack` for strings (substring test). -/
def hasSub (needle : List Char) : List Char → Bool
  | [] => needle.isEmpty
  | c :: cs => startsW needle (c :: cs) || hasSub needle cs

/-- Python `k in data` for a string key `k`: key membership for dicts,
element membership for lists, substring for strings, TypeError otherwise. -/
def pyContainsStr (v : JVal) (k : String) : Except PyErr Bool :=
  match v with
  | .obj kvs => .ok (kvs.any (fun e => e.1 = k))
  | .arr xs => .ok (xs.any (fun x => jvalIsStrEq x k))
  | .str s => .ok (hasSub k.data s.data)
  | _ => .error .typeErr

/-- Python `data[k]` for a string key `k`: dict indexing; string keys on
lists and strings raise TypeError; a missing dict key raises KeyError. -/
def pyIndexStr (v : JVal) (k : String) : Except PyErr JVal :=
  match v with
  | .obj kvs =>
    match lookupJ kvs k with
    | some x => .ok x
    | none => .error .keyErr
  | _ => .error .typeErr

/-- The key names probed by `fetch_page` (source line 485). -/
def recordKeys : List String := ["media", "data", "results", "items"]

/-- The `for key in (...)` probe loop of `fetch_page` (source lines 485 to
487, reused on lines 490 to 492): return the first key whose value is a
list, skipping keys that are absent or hold non-lists. -/
def probeKeys (data : JVal) : List String → Except PyErr (Option (List JVal))
  | [] => .ok none
  | k :: ks => do
    let c ← pyContainsStr data k
    if c then
      let v ← pyIndexStr data k
      match v with
      | .arr l => pure (some l)
      | _ => probeKeys data ks
    else probeKeys data ks

/-- The response unwrapping of `fetch_page` (source lines 483 to 494):
probe the top-level keys, then the same keys one level inside a dict-valued
"response" wrapper, else return the empty list. -/
def unwrap_records (data : JVal) : Except PyErr (List JVal) := do
  match ← probeKeys data recordKeys with
  | some l => pure l
  | none => do
    let c ← pyContainsStr data "response"
    if c then
      let v ← pyIndexStr data "response"
      match v with
      | .obj _ =>
        match ← probeKeys v recordKeys with
        | some l => pure l
        | none => pure []
      | _ => pure []
    else pure []

/-- One HTTP response to the listing request, as far as `fetch_page`
observes it: the status code, the Retry-After header, the parsed JSON body. -/
structure ApiResponse where
  status : Nat
  retryAfter : Option String
  body : JVal

/-- Failure modes of `fetch_page`: `requests.HTTPError` from
`raise_for_status`, or an uncaught Python exception. -/
inductive FetchErr where
  | http (status : Nat)
  | py (e : PyErr)
deriving DecidableEq

/-- Observable outcome of one `fetch_page` call: its value or error, the
total time slept, and the number of GET requests issued. -/
structure FetchOutcome where
  result : Except FetchErr (List JVal)
  waited : Nat
  attempts : Nat

/-- Model of `requests.Response.raise_for_status`: raises exactly for
status codes in [400, 600). -/
def raisesForStatus (s : Nat) : Bool := decide (400 ≤ s ∧ s < 600)

/-- ASCII whitespace stripped by Python `int(str)`. -/
def isSpaceChar (c : Char) : Bool :=
  c = ' ' ∨ c = '\t' ∨ c = '\n' ∨ c = '\r'

/-- Decimal digits to a number, or `none` when empty or non-digit. -/
def digitsToNat (ds : List Char) : Option Nat :=
  if ds ≠ [] ∧ ds.all Char.isDigit then
    some (ds.foldl (fun a c => a * 10 + (c.toNat - 48)) 0)
  else none

/-- Model of Python `int(s)` on strings (see the file header). -/
def pyIntParse (s : String) : Option Int :=
  let cs := ((s.data.dropWhile isSpaceChar).reverse.dropWhile isSpaceChar).reverse
  match cs with
  | '+' :: ds => (digitsToNat ds).map Int.ofNat
  | '-' :: ds => (digitsToNat ds).map (fun n => -(n : Int))
  | ds => (digitsToNat ds).map Int.ofNat

/-- Tail of `fetch_page` after the retry logic (source lines 482 to 494):
`raise_for_status`, `resp.json() or \x7b\x7d`, unwrap. -/
def fetch_finish (r : ApiResponse) (waited attempts : Nat) : FetchOutcome :=
  if raisesForStatus r.status then ⟨.error (.http r.status), waited, attempts⟩
  else
    let data := if r.body.truthy then r.body else .obj []
    match unwrap_records data with
    | .ok l => ⟨.ok l, waited, attempts⟩
    | .error e => ⟨.error (.py e), waited, attempts⟩

/-- Embedding of `fetch_page` (source lines 453 to 494).  The network is an
oracle from attempt index to response; auth headers and query parameters do
not influence the modelled control flow.  On a 429 the code sleeps
`int(headers.get("Retry-After", "5"))` seconds (`int` may raise ValueError,
as may `time.sleep` on a negative value) and retries exactly once. -/
def fetch_page (oracle : Nat → ApiResponse) : FetchOutcome :=
  let r0 := oracle 0
  if r0.status = 429 then
    match pyIntParse (r0.retryAfter.getD "5") with
    | none => ⟨.error (.py .valueErr), 0, 1⟩
    | some w =>
      if w < 0 then ⟨.error (.py .valueErr), 0, 1⟩
      else fetch_finish (oracle 1) w.toNat 2
  else fetch_finish r0 0 1

example :
    unwrap_records (.obj [("media", .arr []),
      ("response", .obj [("media", .arr [.str "x"])])]) = .ok [] := by rfl
example :
    unwrap_records (.obj [("response", .obj [("data", .arr [.str "x"])])]) =
      .ok [.str "x"] := by rfl

/-- Filesystem path as its list of components (the `pathlib` view). -/
abbrev FPath := List String

/-- All leading component sequences of a path, the directories that
`mkdir(parents=True, exist_ok=True)` guarantees to exist afterwards. -/
def allPrefixes : FPath → List FPath
  | [] => [[]]
  | x :: xs => [] :: (allPrefixes xs).map (fun q => x :: q)

/-- Filesystem state: regular files with contents (byte lists) plus
directories. -/
structure FS where
  files : List (FPath × List Nat)
  dirs : List FPath

/-- Model of `Path.exists`: true for files and directories alike. -/
def pathExists (fs : FS) (p : FPath) : Bool :=
  decide ((∃ e ∈ fs.files, e.1 = p) ∨ p ∈ fs.dirs)

/-- Model of `d.mkdir(parents=True, exist_ok=True)`: afterwards every
leading component sequence of `d` exists as a directory; never raises. -/
def mkdirParents (fs : FS) (d : FPath) : FS :=
  { fs with dirs := allPrefixes d ++ fs.dirs }

/-- One HTTP response to a download GET: status code and body chunks as
`iter_content` would yield them. -/
structure DlResponse where
  status : Nat
  chunks : List (List Nat)

/-- Outcome of one `download_one` call as `main` observes it: early
return on an existing destination, a completed write, or a raised
`requests.HTTPError` carrying the status. -/
inductive DlResult where
  | skipped
  | downloaded
  | failed (status : Nat)
deriving DecidableEq

/-- Embedding of `download_one` (source lines 549 to 566).  The network is
an oracle from URL to response (headers do not influence control flow).
Returns the new filesystem, the observable outcome, and the number of
network GET requests issued. -/
def download_one (net : String → DlResponse) (url : String) (dest : FPath)
    (fs : FS) : FS × DlResult × Nat :=
  let fs1 := mkdirParents fs dest.dropLast
  if pathExists fs1 dest then (fs1, .skipped, 0)
  else
    let resp := net url
    if raisesForStatus resp.status then (fs1, .failed resp.status, 1)
    else
      ({ fs1 with
          files := (dest, (resp.chunks.filter (fun c => !c.isEmpty)).flatten) :: fs1.files },
        .downloaded, 1)

/-- Embedding of the dispatch loop of `main` (source lines 637 to 647).
The thread pool is modelled as sequential dispatch: jobs are independent
up to the shared filesystem, and the claims checked below (per-job
outcome, network call counts, skip behaviour) do not depend on the
interleaving.  Each future's exception is caught by the `try` around
`fut.result()` and reported as a `failed` entry, so the loop always
produces one outcome per job. -/
def run_jobs (net : String → DlResponse) (jobs : List (String × FPath))
    (fs : FS) : FS × List DlResult × Nat :=
  match jobs with
  | [] => (fs, [], 0)
  | (url, dest) :: rest =>
    let r1 := download_one net url dest fs
    let rr := run_jobs net rest r1.1
    (rr.1, r1.2.1 :: rr.2.1, r1.2.2 + rr.2.2)

/-- Result of one `fetch_page` call as the `main` loop observes it:
a record list, a caught `requests.HTTPError`, or an uncaught exception. -/
inductive FetchRes where
  | records (l : List JVal)
  | httpErr
  | pyRaise

/-- Why the enumeration loop of `main` stopped. -/
inductive StopReason where
  | emptyPage
  | capReached
  | fetchFailed
  | crashed
  | fuelOut
deriving DecidableEq

/-- The `if args.max_pages and page > args.max_pages` guard (source line
601): `None` and `0` are falsy, so neither caps. -/
def capActive (maxPages : Option Nat) (page : Nat) : Bool :=
  match maxPages with
  | none => false
  | some m => decide (m ≠ 0) && decide (page > m)

/-- Model of `out_dir / fname` for the filenames `pick_filename` produces
(single path components; `pathlib` would split a slash-bearing name). -/
def pathJoin (base : FPath) (fname : String) : FPath := base ++ [fname]

/-- The `for media in media_page` body of `main` (source lines 614 to 622):
extract candidates, skip records with none, enqueue the first candidate as
a job at `out_dir / fname`.  An extraction exception is uncaught. -/
def process_page (out_dir : FPath) (now : Int) :
    List JVal → Except PyErr (List (String × FPath))
  | [] => .ok []
  | m :: rest => do
    let js ←
      match extract_downloads_v m now with
      | .error e => Except.error e
      | .ok [] => pure []
      | .ok ((u, f) :: _) => pure [(u, pathJoin out_dir f)]
    let rs ← process_page out_dir now rest
    pure (js ++ rs)

/-- Observable outcome of the enumeration loop: number of `fetch_page`
calls, records enumerated, jobs queued, and why it stopped. -/
structure EnumResult where
  calls : Nat
  records : List JVal
  jobs : List (String × FPath)
  stop : StopReason

/-- Embedding of the pagination loop of `main` (source lines 597 to 624).
`fetch` abstracts one `fetch_page` call per page number; `fuel` bounds the
number of iterations so the definition is total (every claim supplies
enough fuel and `fuelOut` is never reached there). -/
def enum_loop (fetch : Nat → FetchRes) (maxPages : Option Nat) (out_dir : FPath)
    (now : Int) (page : Nat) : Nat → EnumResult
  | 0 => ⟨0, [], [], .fuelOut⟩
  | fuel + 1 =>
    if capActive maxPages page then ⟨0, [], [], .capReached⟩
    else
      match fetch page with
      | .httpErr => ⟨1, [], [], .fetchFailed⟩
      | .pyRaise => ⟨1, [], [], .crashed⟩
      | .records [] => ⟨1, [], [], .emptyPage⟩
      | .records (m :: ms) =>
        match process_page out_dir now (m :: ms) with
        | .error _ => ⟨1, m :: ms, [], .crashed⟩
        | .ok js =>
          let r := enum_loop fetch maxPages out_dir now (page + 1) fuel
          ⟨r.calls + 1, (m :: ms) ++ r.records, js ++ r.jobs, r.stop⟩

lemma pathExists_true {fs : FS} {p : FPath} :
    pathExists fs p = true ↔ (∃ e ∈ fs.files, e.1 = p) ∨ p ∈ fs.dirs := by
  simp [pathExists]

lemma pathExists_mkdirParents {fs : FS} {d p : FPath} :
    pathExists (mkdirParents fs d) p = true ↔
      p ∈ allPrefixes d ∨ pathExists fs p = true := by
  simp [pathExists, mkdirParents]
  tauto

lemma self_mem_allPrefixes (d : FPath) : d ∈ allPrefixes d := by
  induction d with
  | nil => simp [allPrefixes]
  | cons x xs ih =>
    simp only [allPrefixes, List.mem_cons, List.mem_map]
    exact Or.inr ⟨xs, ih, rfl⟩

lemma length_le_of_mem_allPrefixes {q d : FPath} (h : q ∈ allPrefixes d) :
    q.length ≤ d.length := by
  induction d generalizing q with
  | nil => simp [allPrefixes] at h; simp [h]
  | cons x xs ih =>
    simp only [allPrefixes, List.mem_cons, List.mem_map] at h
    rcases h with rfl | ⟨r, hr, rfl⟩
    · simp
    · simpa using ih hr

lemma not_mem_allPrefixes_of_length {q d : FPath} (h : d.length < q.length) :
    q ∉ allPrefixes d :=
  fun hm => absurd (length_le_of_mem_allPrefixes hm) (by omega)

lemma download_one_of_exists {net : String → DlResponse} {url : String}
    {dest : FPath} {fs : FS}
    (h : pathExists (mkdirParents fs dest.dropLast) dest = true) :
    download_one net url dest fs = (mkdirParents fs dest.dropLast, .skipped, 0) := by
  simp [download_one, h]

lemma download_one_of_not_exists {net : String → DlResponse} {url : String}
    {dest : FPath} {fs : FS}
    (h : pathExists (mkdirParents fs dest.dropLast) dest = false) :
    download_one net url dest fs =
      if raisesForStatus (net url).status then
        (mkdirParents fs dest.dropLast, .failed (net url).status, 1)
      else
        ({ mkdirParents fs dest.dropLast with
            files := (dest, ((net url).chunks.filter (fun c => !c.isEmpty)).flatten) ::
              (mkdirParents fs dest.dropLast).files },
          .downloaded, 1) := by
  simp [download_one, h]

lemma download_one_exists_mono {net : String → DlResponse} {url : String}
    {dest p : FPath} {fs : FS}
    (h : pathExists (mkdirParents fs dest.dropLast) p = true) :
    pathExists (download_one net url dest fs).1 p = true := by
  by_cases hsk : pathExists (mkdirParents fs dest.dropLast) dest = true
  · rw [download_one_of_exists hsk]; exact h
  · rw [download_one_of_not_exists (Bool.eq_false_iff.mpr hsk)]
    split
    · exact h
    · rcases pathExists_true.mp h with ⟨e, he, hep⟩ | hd
      · exact pathExists_true.mpr (Or.inl ⟨e, List.mem_cons_of_mem _ he, hep⟩)
      · exact pathExists_true.mpr (Or.inr hd)

lemma download_one_exists_mono' {net : String → DlResponse} {url : String}
    {dest p : FPath} {fs : FS} (h : pathExists fs p = true) :
    pathExists (download_one net url dest fs).1 p = true :=
  download_one_exists_mono (pathExists_mkdirParents.mpr (Or.inr h))

lemma pathExists_download_one_imp {net : String → DlResponse} {url : String}
    {dest p : FPath} {fs : FS}
    (h : pathExists (download_one net url dest fs).1 p = true) :
    pathExists fs p = true ∨ p ∈ allPrefixes dest.dropLast ∨ p = dest := by
  by_cases hsk : pathExists (mkdirParents fs dest.dropLast) dest = true
  · rw [download_one_of_exists hsk] at h
    rcases pathExists_mkdirParents.mp h with hp | hp
    · exact Or.inr (Or.inl hp)
    · exact Or.inl hp
  · rw [download_one_of_not_exists (Bool.eq_false_iff.mpr hsk)] at h
    split at h
    · rcases pathExists_mkdirParents.mp h with hp | hp
      · exact Or.inr (Or.inl hp)
      · exact Or.inl hp
    · rcases pathExists_true.mp h with ⟨e, he, hep⟩ | hd
      · rcases List.mem_cons.mp he with rfl | he2
        · exact Or.inr (Or.inr hep.symm)
        · have : pathExists (mkdirParents fs dest.dropLast) p = true :=
            pathExists_true.mpr (Or.inl ⟨e, he2, hep⟩)
          rcases pathExists_mkdirParents.mp this with hp | hp
          · exact Or.inr (Or.inl hp)
          · exact Or.inl hp
      · have : pathExists (mkdirParents fs dest.dropLast) p = true :=
          pathExists_true.mpr (Or.inr hd)
        rcases pathExists_mkdirParents.mp this with hp | hp
        · exact Or.inr (Or.inl hp)
        · exact Or.inl hp

lemma download_one_dest_exists {net : String → DlResponse} {url : String}
    {dest : FPath} {fs : FS}
    (h : raisesForStatus (net url).status = false) :
    pathExists (download_one net url dest fs).1 dest = true := by
  by_cases hsk : pathExists (mkdirParents fs dest.dropLast) dest = true
  · rw [download_one_of_exists hsk]; exact hsk
  · rw [download_one_of_not_exists (Bool.eq_false_iff.mpr hsk)]
    simp only [h, if_false, Bool.false_eq_true]
    exact pathExists_true.mpr (Or.inl ⟨_, List.mem_cons_self _ _, rfl⟩)

lemma run_jobs_length (net : String → DlResponse) (jobs : List (String × FPath))
    (fs : FS) : (run_jobs net jobs fs).2.1.length = jobs.length := by
  induction jobs generalizing fs with
  | nil => rfl
  | cons j rest ih => simp [run_jobs, ih]

lemma run_jobs_exists_mono {net : String → DlResponse}
    {jobs : List (String × FPath)} {fs : FS} {p : FPath}
    (h : pathExists fs p = true) :
    pathExists (run_jobs net jobs fs).1 p = true := by
  induction jobs generalizing fs with
  | nil => exact h
  | cons j rest ih => exact ih (download_one_exists_mono' h)

lemma run_jobs_all_dests_exist {net : String → DlResponse}
    {jobs : List (String × FPath)} {fs : FS}
    (hnet : ∀ u, raisesForStatus (net u).status = false) :
    ∀ j ∈ jobs, pathExists (run_jobs net jobs fs).1 j.2 = true := by
  induction jobs generalizing fs with
  | nil => intro j hj; cases hj
  | cons j0 rest ih =>
    obtain ⟨url0, dest0⟩ := j0
    intro j hj
    rcases List.mem_cons.mp hj with rfl | hj2
    · simp only [run_jobs]
      exact run_jobs_exists_mono (download_one_dest_exists (hnet url0))
    · simp only [run_jobs]
      exact ih j hj2

lemma run_jobs_zero_calls {net : String → DlResponse}
    {jobs : List (String × FPath)} {fs : FS}
    (h : ∀ j ∈ jobs, pathExists fs j.2 = true) :
    (run_jobs net jobs fs).2.2 = 0 := by
  induction jobs generalizing fs with
  | nil => rfl
  | cons j0 rest ih =>
    obtain ⟨url, dest⟩ := j0
    have hd : pathExists (mkdirParents fs dest.dropLast) dest = true :=
      pathExists_mkdirParents.mpr (Or.inr (h (url, dest) (List.mem_cons_self _ _)))
    simp only [run_jobs, download_one_of_exists hd]
    have : ∀ j ∈ rest, pathExists (mkdirParents fs dest.dropLast) j.2 = true :=
      fun j hj => pathExists_mkdirParents.mpr
        (Or.inr (h j (List.mem_cons_of_mem _ hj)))
    simp [ih this]

/-- C1.  Download idempotence via skip-if-exists: a `download_one` call whose
destination already exists only ensures the parent directories, returns the
skip outcome and issues zero network requests (in particular the file table
is unchanged); consequently, after a fully successful run of the dispatch
loop, rerunning it on the identical job list issues zero network requests. -/
theorem download_skip_idempotent :
    (∀ (net : String → DlResponse) (url : String) (dest : FPath) (fs : FS),
        pathExists fs dest = true →
        download_one net url dest fs =
          (mkdirParents fs dest.dropLast, DlResult.skipped, 0)) ∧
    (∀ (net : String → DlResponse) (jobs : List (String × FPath)) (fs : FS),
        (∀ u, raisesForStatus (net u).status = false) →
        (run_jobs net jobs (run_jobs net jobs fs).1).2.2 = 0) := by
  constructor
  · intro net url dest fs h
    exact download_one_of_exists (pathExists_mkdirParents.mpr (Or.inr h))
  · intro net jobs fs hnet
    exact run_jobs_zero_calls (run_jobs_all_dests_exist hnet)

/-- Closed witness for C1: a destination that already exists is skipped with
zero requests, and a rerun of a one-job list issues zero requests. -/
theorem download_skip_idempotent_witness :
    download_one (fun _ => ⟨200, [[1]]⟩) "u" ["out", "a.mp4"]
        ⟨[(["out", "a.mp4"], [])], []⟩ =
      (mkdirParents ⟨[(["out", "a.mp4"], [])], []⟩ ["out", "a.mp4"].dropLast,
        DlResult.skipped, 0) ∧
    (run_jobs (fun _ => ⟨200, [[1]]⟩) [("u", ["out", "a.mp4"])]
        ((run_jobs (fun _ => ⟨200, [[1]]⟩) [("u", ["out", "a.mp4"])] ⟨[], []⟩).1)).2.2 = 0 :=
  ⟨download_skip_idempotent.1 _ "u" _ _ (by decide),
   download_skip_idempotent.2 _ _ ⟨[], []⟩ (fun _ => by decide)⟩

/-- C10.  The skip path still mutates the filesystem: every `download_one`
call creates the missing parent directories of the destination (the mkdir
precedes the existence check), and on the skip path no file contents are
written or modified. -/
theorem download_skip_still_mkdirs :
    ∀ (net : String → DlResponse) (url : String) (dest : FPath) (fs : FS),
      (∀ q ∈ allPrefixes dest.dropLast,
          pathExists (download_one net url dest fs).1 q = true) ∧
      (pathExists fs dest = true →
        (download_one net url dest fs).1.files = fs.files) := by
  intro net url dest fs
  constructor
  · intro q hq
    exact download_one_exists_mono (pathExists_mkdirParents.mpr (Or.inl hq))
  · intro h
    rw [download_one_of_exists (pathExists_mkdirParents.mpr (Or.inr h))]
    rfl

/-- Closed witness for C10: with destination `out/sub/f.mp4` already present,
the call leaves the file table unchanged and the directories `out` and
`out/sub` exist afterwards. -/
theorem download_skip_still_mkdirs_witness :
    pathExists (download_one (fun _ => ⟨200, [[1]]⟩) "u" ["out", "sub", "f.mp4"]
        ⟨[(["out", "sub", "f.mp4"], [7])], []⟩).1 ["out", "sub"] = true ∧
    (download_one (fun _ => ⟨200, [[1]]⟩) "u" ["out", "sub", "f.mp4"]
        ⟨[(["out", "sub", "f.mp4"], [7])], []⟩).1.files =
      [(["out", "sub", "f.mp4"], [7])] :=
  ⟨(download_skip_still_mkdirs _ "u" _ _).1 ["out", "sub"] (by decide),
   (download_skip_still_mkdirs _ "u" _ _).2 (by decide)⟩

lemma download_one_result_of_not_exists {net : String → DlResponse} {url : String}
    {dest : FPath} {fs : FS}
    (h : pathExists (mkdirParents fs dest.dropLast) dest = false) :
    (download_one net url dest fs).2.1 =
      if raisesForStatus (net url).status then DlResult.failed (net url).status
      else DlResult.downloaded := by
  rw [download_one_of_not_exists h]
  by_cases hst : raisesForStatus (net url).status <;> simp [hst]

lemma run_jobs_isolated_results :
    ∀ (net : String → DlResponse) (urls fnames : List String)
      (out_dir : FPath) (fs : FS),
      urls.length = fnames.length → fnames.Nodup →
      (∀ f ∈ fnames, pathExists fs (out_dir ++ [f]) = false) →
      (run_jobs net (urls.zip (fnames.map (fun f => out_dir ++ [f]))) fs).2.1 =
        urls.map (fun u =>
          if raisesForStatus (net u).status then DlResult.failed (net u).status
          else DlResult.downloaded) := by
  intro net urls
  induction urls with
  | nil => intro fnames out_dir fs _ _ _; simp [run_jobs]
  | cons u us ih =>
    intro fnames out_dir fs hlen hnd hex
    cases fnames with
    | nil => simp at hlen
    | cons f fsn =>
      have hdl : (out_dir ++ [f]).dropLast = out_dir := by simp
      have hne : pathExists (mkdirParents fs (out_dir ++ [f]).dropLast)
          (out_dir ++ [f]) = false := by
        rw [hdl]
        apply Bool.eq_false_iff.mpr
        intro hT
        rcases pathExists_mkdirParents.mp hT with hp | hp
        · exact not_mem_allPrefixes_of_length (by simp) hp
        · rw [hex f (List.mem_cons_self _ _)] at hp
          exact Bool.false_ne_true hp
      have hrest : ∀ f2 ∈ fsn,
          pathExists (download_one net u (out_dir ++ [f]) fs).1
            (out_dir ++ [f2]) = false := by
        intro f2 hf2
        apply Bool.eq_false_iff.mpr
        intro hT
        rcases pathExists_download_one_imp hT with hp | hp | hp
        · rw [hex f2 (List.mem_cons_of_mem _ hf2)] at hp
          exact Bool.false_ne_true hp
        · rw [hdl] at hp
          exact not_mem_allPrefixes_of_length (by simp) hp
        · have hf : f2 = f := by simpa using hp
          exact (List.nodup_cons.mp hnd).1 (hf ▸ hf2)
      have ihres := ih fsn out_dir (download_one net u (out_dir ++ [f]) fs).1
        (by simpa using hlen) (List.nodup_cons.mp hnd).2 hrest
      simp only [List.map_cons, List.zip_cons_cons, run_jobs]
      rw [download_one_result_of_not_exists hne]
      exact congrArg _ ihres

/-- C4.  Partial-failure isolation in the dispatch loop: for jobs targeting
distinct, not yet existing destinations under one output directory, the loop
produces exactly one outcome per job (no exception escapes), and each job's
outcome is decided solely by its own response status: a failing job is
reported as `failed` while every other job still completes as `downloaded`. -/
theorem scheduler_partial_failure_isolation :
    ∀ (net : String → DlResponse) (urls fnames : List String)
      (out_dir : FPath) (fs : FS),
      urls.length = fnames.length → fnames.Nodup →
      (∀ f ∈ fnames, pathExists fs (out_dir ++ [f]) = false) →
      (run_jobs net (urls.zip (fnames.map (fun f => out_dir ++ [f]))) fs).2.1.length =
        (urls.zip (fnames.map (fun f => out_dir ++ [f]))).length ∧
      (run_jobs net (urls.zip (fnames.map (fun f => out_dir ++ [f]))) fs).2.1 =
        urls.map (fun u =>
          if raisesForStatus (net u).status then DlResult.failed (net u).status
          else DlResult.downloaded) :=
  fun net urls fnames out_dir fs hlen hnd hex =>
    ⟨run_jobs_length net _ fs,
     run_jobs_isolated_results net urls fnames out_dir fs hlen hnd hex⟩

/-- Closed witness for C4: three jobs where only the second URL returns a
500; jobs one and three download, job two is reported failed, and the run
yields one outcome per job. -/
theorem scheduler_partial_failure_isolation_witness :
    (run_jobs (fun u => if u = "u2" then ⟨500, [[1]]⟩ else ⟨200, [[1]]⟩)
        (["u1", "u2", "u3"].zip (["f1", "f2", "f3"].map (fun f => ["out"] ++ [f])))
        ⟨[], []⟩).2.1.length =
      (["u1", "u2", "u3"].zip (["f1", "f2", "f3"].map (fun f => ["out"] ++ [f]))).length ∧
    (run_jobs (fun u => if u = "u2" then ⟨500, [[1]]⟩ else ⟨200, [[1]]⟩)
        (["u1", "u2", "u3"].zip (["f1", "f2", "f3"].map (fun f => ["out"] ++ [f])))
        ⟨[], []⟩).2.1 =
      [DlResult.downloaded, DlResult.failed 500, DlResult.downloaded] := by
  have h := scheduler_partial_failure_isolation
    (fun u => if u = "u2" then ⟨500, [[1]]⟩ else ⟨200, [[1]]⟩)
    ["u1", "u2", "u3"] ["f1", "f2", "f3"] ["out"] ⟨[], []⟩
    (by decide) (by decide) (by intro f hf; fin_cases hf <;> decide)
  exact ⟨h.1, h.2.trans (by decide)⟩

/-- C8.  Filename fallback in `pick_filename`: when the URL path has a last
segment it is the filename; when it has none, the filename is the string of
the record's "id" field, and with no "id" field it is the string of the
fallback token `int(time.time())`. -/
theorem pick_filename_fallback :
    ∀ (url : String) (media : List (String × JVal)) (now : Int),
      (pathName (urlparsePath url) ≠ "" →
        pick_filename url media now = pathName (urlparsePath url)) ∧
      (pathName (urlparsePath url) = "" →
        (∀ v, lookupJ media "id" = some v →
          pick_filename url media now = pyStr v) ∧
        (lookupJ media "id" = none →
          pick_filename url media now = pyStr (.num now))) := by
  intro url media now
  refine ⟨fun h => ?_, fun h => ⟨fun v hv => ?_, fun hv => ?_⟩⟩
  · simp [pick_filename, h]
  · simp [pick_filename, h, hv]
  · simp [pick_filename, h, hv]

/-- Closed witness for C8: a URL with a path yields its last segment; a URL
with no path segment yields the record id; with no id the time token. -/
theorem pick_filename_fallback_witness :
    pick_filename "https://h.example/a/b.mp4" [] 0 = "b.mp4" ∧
    pick_filename "https://h.example" [("id", .str "GPX01")] 0 = "GPX01" ∧
    pick_filename "https://h.example" [] 7 = pyStr (.num 7) :=
  ⟨((pick_filename_fallback "https://h.example/a/b.mp4" [] 0).1
      (by decide)).trans (by rfl),
   (((pick_filename_fallback "https://h.example" [("id", .str "GPX01")] 0).2
      (by rfl)).1 (.str "GPX01") (by rfl)).trans (by rfl),
   ((pick_filename_fallback "https://h.example" [] 7).2 (by rfl)).2 (by rfl)⟩

lemma lookupJ_none_iff {kvs : List (String × JVal)} {k : String} :
    lookupJ kvs k = none ↔ kvs.any (fun e => decide (e.1 = k)) = false := by
  induction kvs with
  | nil => simp [lookupJ]
  | cons e rest ih =>
    obtain ⟨k2, v⟩ := e
    by_cases hk : k2 = k <;> simp [lookupJ, hk, ih]

lemma probeKeys_obj (kvs : List (String × JVal)) (ks : List String) :
    probeKeys (.obj kvs) ks =
      .ok (ks.findSome? (fun k =>
        match lookupJ kvs k with
        | some (.arr l) => some l
        | _ => none)) := by
  induction ks with
  | nil => rfl
  | cons k ks ih =>
    rcases hl : lookupJ kvs k with _ | v
    · have hc : kvs.any (fun e => decide (e.1 = k)) = false := lookupJ_none_iff.mp hl
      simp [probeKeys, pyContainsStr, hc, List.findSome?_cons, hl, ih, bind,
        Except.bind, pure, Except.pure]
    · have hc : kvs.any (fun e => decide (e.1 = k)) = true := by
        by_contra hcf
        rw [lookupJ_none_iff.mpr (Bool.eq_false_iff.mpr hcf)] at hl
        cases hl
      cases v <;>
        simp [probeKeys, pyContainsStr, pyIndexStr, hc, List.findSome?_cons, hl, ih,
          Except.bind, bind, pure, Except.pure]

/-- C9.  Top-level keys shadow the wrapped response: whenever any of the
keys "media", "data", "results", "items" holds a list at top level, the
unwrapping step of `fetch_page` returns the first such list in that fixed
key order, regardless of any "response" wrapper content (so an empty
top-level list is returned, and treated as end-of-stream, even when data
exists under the wrapper). -/
theorem fetch_top_level_shadow :
    ∀ (kvs : List (String × JVal)) (l : List JVal),
      recordKeys.findSome? (fun k =>
        match lookupJ kvs k with
        | some (.arr l2) => some l2
        | _ => none) = some l →
      unwrap_records (.obj kvs) = .ok l := by
  intro kvs l h
  simp [unwrap_records, probeKeys_obj, h, bind, Except.bind, pure, Except.pure]

/-- Closed witness for C9: the empty top-level "media" list shadows a
non-empty list under response.media. -/
theorem fetch_top_level_shadow_witness :
    unwrap_records (.obj [("media", .arr []),
      ("response", .obj [("media", .arr [.str "hidden"])])]) = .ok [] :=
  fetch_top_level_shadow _ [] (by rfl)

lemma dedupGo_eq_self :
    ∀ {l : List (String × String)} {seen : List String},
      (l.map Prod.fst).Nodup → (∀ p ∈ l, p.1 ∉ seen) → dedupGo seen l = l := by
  intro l
  induction l with
  | nil => intro seen _ _; rfl
  | cons p rest ih =>
    intro seen hnd hs
    obtain ⟨u, f⟩ := p
    have hnd2 : u ∉ rest.map Prod.fst ∧ (rest.map Prod.fst).Nodup := by
      simpa [List.nodup_cons] using hnd
    have hc : seen.contains u = false := by
      simpa using hs (u, f) (List.mem_cons_self _ _)
    simp only [dedupGo, hc, Bool.false_eq_true, if_false]
    congr 1
    apply ih hnd2.2
    intro q hq hqs
    rcases List.mem_cons.mp hqs with h1 | h2
    · exact hnd2.1 (h1 ▸ List.mem_map_of_mem Prod.fst hq)
    · exact hs q (List.mem_cons_of_mem _ hq) h2

lemma dedupFirst_eq_self {l : List (String × String)}
    (h : (l.map Prod.fst).Nodup) : dedupFirst l = l :=
  dedupGo_eq_self h (by simp)

lemma dedupGo_mem_not_seen :
    ∀ {l : List (String × String)} {seen : List String} {p},
      p ∈ dedupGo seen l → p.1 ∉ seen := by
  intro l
  induction l with
  | nil => intro seen p hp; cases hp
  | cons q rest ih =>
    intro seen p hp
    obtain ⟨u, f⟩ := q
    by_cases hc : seen.contains u = true
    · simp only [dedupGo, hc, if_true] at hp
      exact ih hp
    · simp only [dedupGo, hc, Bool.false_eq_true, if_false] at hp
      rcases List.mem_cons.mp hp with rfl | hp2
      · simpa using hc
      · intro hmem
        exact ih hp2 (List.mem_cons_of_mem _ hmem)

lemma dedupGo_nodup :
    ∀ {l : List (String × String)} {seen : List String},
      ((dedupGo seen l).map Prod.fst).Nodup := by
  intro l
  induction l with
  | nil => intro seen; simp [dedupGo]
  | cons q rest ih =>
    intro seen
    obtain ⟨u, f⟩ := q
    by_cases hc : seen.contains u = true
    · simp only [dedupGo, hc, if_true]; exact ih
    · simp only [dedupGo, hc, Bool.false_eq_true, if_false, List.map_cons,
        List.nodup_cons]
      refine ⟨?_, ih⟩
      intro hmem
      rcases List.mem_map.mp hmem with ⟨p, hp, hpu⟩
      exact dedupGo_mem_not_seen hp (by simp [hpu])

lemma dedupGo_sublist (seen : List String) (l : List (String × String)) :
    (dedupGo seen l).Sublist l := by
  induction l generalizing seen with
  | nil => simp [dedupGo]
  | cons q rest ih =>
    obtain ⟨u, f⟩ := q
    by_cases hc : seen.contains u = true
    · simp only [dedupGo, hc, if_true]
      exact (ih seen).cons _
    · simp only [dedupGo, hc, Bool.false_eq_true, if_false]
      exact (ih (u :: seen)).cons₂ _

lemma dedupGo_find_first :
    ∀ {l : List (String × String)} {seen : List String} {p},
      p ∈ dedupGo seen l → l.find? (fun q => q.1 == p.1) = some p := by
  intro l
  induction l with
  | nil => intro seen p hp; cases hp
  | cons q rest ih =>
    intro seen p hp
    obtain ⟨u, f⟩ := q
    by_cases hc : seen.contains u = true
    · simp only [dedupGo, hc, if_true] at hp
      have hne : u ≠ p.1 := by
        intro he
        exact dedupGo_mem_not_seen hp (by simpa [← he] using hc)
      rw [List.find?_cons_of_neg _ (by simpa using hne)]
      exact ih hp
    · simp only [dedupGo, hc, Bool.false_eq_true, if_false] at hp
      rcases List.mem_cons.mp hp with rfl | hp2
      · rw [List.find?_cons_of_pos _ (by simp)]
      · have hne : u ≠ p.1 := by
          intro he
          exact dedupGo_mem_not_seen hp2 (by simp [← he])
        rw [List.find?_cons_of_neg _ (by simpa using hne)]
        exact ih hp2

lemma dedupGo_covers :
    ∀ {l : List (String × String)} {seen : List String} {q},
      q ∈ l → q.1 ∈ seen ∨ ∃ p ∈ dedupGo seen l, p.1 = q.1 := by
  intro l
  induction l with
  | nil => intro seen q hq; cases hq
  | cons e rest ih =>
    intro seen q hq
    obtain ⟨u, f⟩ := e
    by_cases hc : seen.contains u = true
    · simp only [dedupGo, hc, if_true]
      rcases List.mem_cons.mp hq with rfl | hq2
      · exact Or.inl (by simpa using hc)
      · exact ih hq2
    · simp only [dedupGo, hc, Bool.false_eq_true, if_false]
      rcases List.mem_cons.mp hq with rfl | hq2
      · exact Or.inr ⟨(u, f), List.mem_cons_self _ _, rfl⟩
      · rcases @ih (u :: seen) q hq2 with hmem | ⟨p, hp, hpq⟩
        · rcases List.mem_cons.mp hmem with he | hs
          · exact Or.inr ⟨(u, f), List.mem_cons_self _ _, he.symm⟩
          · exact Or.inl hs
        · exact Or.inr ⟨p, List.mem_cons_of_mem _ hp, hpq⟩

/-- C5.  Extractor tier ordering: when the three tiers each succeed and all
candidate URLs are pairwise distinct, `extract_downloads` returns exactly
the tier-1 candidates followed by the tier-2 candidates followed by the
tier-3 candidates — each tier appends to, never replaces, the previous. -/
theorem extract_tier_ordering :
    ∀ (media : List (String × JVal)) (now : Int)
      (l1 l2 l3 : List (String × String)),
      tier1 media now = .ok l1 → tier2 media now = .ok l2 →
      tier3 media now = .ok l3 →
      ((l1 ++ l2 ++ l3).map Prod.fst).Nodup →
      extract_downloads media now = .ok (l1 ++ l2 ++ l3) := by
  intro media now l1 l2 l3 h1 h2 h3 hnd
  have hraw : extract_raw media now = .ok (l1 ++ l2 ++ l3) := by
    simp [extract_raw, h1, h2, h3, bind, Except.bind, pure, Except.pure]
  simp only [extract_downloads, hraw, bind, Except.bind, pure, Except.pure]
  rw [dedupFirst_eq_self hnd]

/-- Closed witness for C5: a record with one candidate in each tier, with
distinct URLs; the result lists them in tier order. -/
theorem extract_tier_ordering_witness :
    extract_downloads
      [("download_url", .str "https://h.example/t1.mp4"),
       ("files", .arr [.obj [("url", .str "https://h.example/t2.mp4")]]),
       ("versions", .obj [("hd", .obj [("url", .str "https://h.example/t3.mp4")])])] 0 =
      .ok ([("https://h.example/t1.mp4", "t1.mp4")] ++
           [("https://h.example/t2.mp4", "t2.mp4")] ++
           [("https://h.example/t3.mp4", "t3.mp4")]) :=
  extract_tier_ordering _ 0 _ _ _ (by rfl) (by rfl) (by rfl) (by decide)

/-- C6.  Extractor deduplication: whenever extraction succeeds, the result
contains each URL at most once, is a subsequence of the raw candidate list,
every kept pair is the first occurrence of its URL in the raw list, and
every raw URL is represented; so a URL exposed in two tiers appears once. -/
theorem extract_dedup_first_seen :
    ∀ (media : List (String × JVal)) (now : Int)
      (raw l : List (String × String)),
      extract_raw media now = .ok raw →
      extract_downloads media now = .ok l →
      (l.map Prod.fst).Nodup ∧
      l.Sublist raw ∧
      (∀ p ∈ l, raw.find? (fun q => q.1 == p.1) = some p) ∧
      (∀ q ∈ raw, ∃ p ∈ l, p.1 = q.1) := by
  intro media now raw l hraw hext
  have hl : l = dedupFirst raw := by
    rw [extract_downloads] at hext
    rw [hraw] at hext
    simp [bind, Except.bind, pure, Except.pure] at hext
    exact hext.symm
  subst hl
  refine ⟨dedupGo_nodup, dedupGo_sublist _ _, fun p hp => dedupGo_find_first hp,
    fun q hq => ?_⟩
  rcases @dedupGo_covers raw [] q hq with hmem | hp
  · cases hmem
  · exact hp

/-- Closed witness for C6: the same URL exposed at top level and in the file
list is returned exactly once, as the first occurrence. -/
theorem extract_dedup_first_seen_witness :
    ([("https://h.example/a/v.mp4", "v.mp4")].map Prod.fst).Nodup ∧
    List.Sublist [("https://h.example/a/v.mp4", "v.mp4")]
      [("https://h.example/a/v.mp4", "v.mp4"),
       ("https://h.example/a/v.mp4", "v.mp4")] :=
  have h := extract_dedup_first_seen
    [("url", .str "https://h.example/a/v.mp4"),
     ("files", .arr [.obj [("download_url", .str "https://h.example/a/v.mp4")]])] 0
    [("https://h.example/a/v.mp4", "v.mp4"), ("https://h.example/a/v.mp4", "v.mp4")]
    [("https://h.example/a/v.mp4", "v.mp4")] (by rfl) (by rfl)
  ⟨h.1, h.2.1⟩

/-- A URL-shaped field value is safe for `add_candidate`: a string, or any
falsy value (which `if u:` skips); a truthy non-string reaches `urlparse`
and raises. -/
def urlShapeOk (v : JVal) : Bool :=
  match v with
  | .str _ => true
  | v => !v.truthy

/-- A file-list entry is safe: a dict whose URL chain is a safe value. -/
def fileEntryOk (e : JVal) : Bool :=
  match e with
  | .obj ek => urlShapeOk (entryUrl ek)
  | _ => false

/-- The files tier is safe: the chained value is a list of safe dict
entries (absent or falsy fields chain to the empty list and qualify). -/
def filesOk (media : List (String × JVal)) : Bool :=
  match pyOr (getd media "files") (pyOr (getd media "media_files") (JVal.arr [])) with
  | .arr xs => xs.all fileEntryOk
  | _ => false

/-- A versions variant is safe: dict variants need a safe URL chain, list
variants need safe dict entries (non-dict entries are skipped), anything
else is skipped by the source's isinstance guards. -/
def variantOk (var : JVal) : Bool :=
  match var with
  | .obj vk => urlShapeOk (entryUrl vk)
  | .arr es =>
    es.all (fun e =>
      match e with
      | .obj ek => urlShapeOk (entryUrl ek)
      | _ => true)
  | _ => true

/-- The versions tier is safe: if the chained value is a dict its variants
must be safe; any non-dict is skipped by the isinstance guard. -/
def versionsOk (media : List (String × JVal)) : Bool :=
  match pyOr (getd media "versions") (pyOr (getd media "derived_media") (JVal.obj [])) with
  | .obj vs => vs.all (fun e => variantOk e.2)
  | _ => true

/-- Records on which `extract_downloads` is total: every truthy URL field
value is a string and the files field chains to a list of dicts. -/
def wellShaped (media : List (String × JVal)) : Bool :=
  urlShapeOk (getd media "download_url") && urlShapeOk (getd media "downloadUrl") &&
    urlShapeOk (getd media "url") && filesOk media && versionsOk media

lemma add_candidate_ok {media : List (String × JVal)} {now : Int} {u : JVal}
    (h : urlShapeOk u = true) :
    ∃ c, add_candidate media now u = .ok c := by
  cases u with
  | str s =>
    by_cases ht : (JVal.str s).truthy = true
    · exact ⟨[(s, pick_filename s media now)], by simp [add_candidate, ht]⟩
    · exact ⟨[], by simp [add_candidate, Bool.eq_false_iff.mpr ht]⟩
  | _ =>
    simp only [urlShapeOk, Bool.not_eq_true'] at h
    exact ⟨[], by simp [add_candidate, h]⟩

lemma filesCandidates_ok {media : List (String × JVal)} {now : Int} :
    ∀ {xs : List JVal}, xs.all fileEntryOk = true →
      ∃ c, filesCandidates media now xs = .ok c := by
  intro xs
  induction xs with
  | nil => intro _; exact ⟨[], rfl⟩
  | cons e rest ih =>
    intro h
    rw [List.all_cons, Bool.and_eq_true] at h
    cases e with
    | obj ek =>
      obtain ⟨c1, hc1⟩ := @add_candidate_ok media now _ h.1
      obtain ⟨cr, hcr⟩ := ih h.2
      exact ⟨c1 ++ cr, by simp [filesCandidates, hc1, hcr, bind, Except.bind,
        pure, Except.pure]⟩
    | _ => simp [fileEntryOk] at h

lemma variantListCandidates_ok {media : List (String × JVal)} {now : Int} :
    ∀ {es : List JVal},
      es.all (fun e =>
        match e with
        | .obj ek => urlShapeOk (entryUrl ek)
        | _ => true) = true →
      ∃ c, variantListCandidates media now es = .ok c := by
  intro es
  induction es with
  | nil => intro _; exact ⟨[], rfl⟩
  | cons e rest ih =>
    intro h
    rw [List.all_cons, Bool.and_eq_true] at h
    cases e with
    | obj ek =>
      obtain ⟨c1, hc1⟩ := @add_candidate_ok media now _ h.1
      obtain ⟨cr, hcr⟩ := ih h.2
      exact ⟨c1 ++ cr, by simp [variantListCandidates, hc1, hcr, bind, Except.bind,
        pure, Except.pure]⟩
    | _ =>
      obtain ⟨cr, hcr⟩ := ih h.2
      exact ⟨cr, by simpa [variantListCandidates] using hcr⟩

lemma versionsCandidates_ok {media : List (String × JVal)} {now : Int} :
    ∀ {vs : List (String × JVal)}, vs.all (fun e => variantOk e.2) = true →
      ∃ c, versionsCandidates media now vs = .ok c := by
  intro vs
  induction vs with
  | nil => intro _; exact ⟨[], rfl⟩
  | cons e rest ih =>
    intro h
    rw [List.all_cons, Bool.and_eq_true] at h
    obtain ⟨k, var⟩ := e
    obtain ⟨cr, hcr⟩ := ih h.2
    have h1 := h.1
    cases var with
    | obj vk =>
      obtain ⟨c1, hc1⟩ := @add_candidate_ok media now _ h1
      exact ⟨c1 ++ cr, by simp [versionsCandidates, hc1, hcr, bind, Except.bind,
        pure, Except.pure]⟩
    | arr es =>
      obtain ⟨c1, hc1⟩ := @variantListCandidates_ok media now _ h1
      exact ⟨c1 ++ cr, by simp [versionsCandidates, hc1, hcr, bind, Except.bind,
        pure, Except.pure]⟩
    | null =>
      exact ⟨[] ++ cr, by simp [versionsCandidates, hcr, bind, Except.bind,
        pure, Except.pure]⟩
    | bool b =>
      exact ⟨[] ++ cr, by simp [versionsCandidates, hcr, bind, Except.bind,
        pure, Except.pure]⟩
    | num n =>
      exact ⟨[] ++ cr, by simp [versionsCandidates, hcr, bind, Except.bind,
        pure, Except.pure]⟩
    | str s =>
      exact ⟨[] ++ cr, by simp [versionsCandidates, hcr, bind, Except.bind,
        pure, Except.pure]⟩

lemma tier2_ok {media : List (String × JVal)} {now : Int}
    (h : filesOk media = true) : ∃ c, tier2 media now = .ok c := by
  unfold filesOk at h
  split at h
  case _ xs heq =>
    obtain ⟨c, hc⟩ := @filesCandidates_ok media now _ h
    exact ⟨c, by rw [tier2, heq]; exact hc⟩
  case _ => cases h

lemma tier3_ok {media : List (String × JVal)} {now : Int}
    (h : versionsOk media = true) : ∃ c, tier3 media now = .ok c := by
  unfold versionsOk at h
  split at h
  case _ vs heq =>
    obtain ⟨c, hc⟩ := @versionsCandidates_ok media now _ h
    exact ⟨c, by rw [tier3, heq]; exact hc⟩
  case _ hne =>
    refine ⟨[], ?_⟩
    rw [tier3]
    split
    case _ vs heq2 => exact absurd heq2 (hne vs)
    case _ => rfl

/-- Counterexample to C7 as stated: a record whose "files" field holds the
number 5 (a wrong-shaped field) makes `extract_downloads` raise a TypeError
(`for file_entry in 5` is not iterable) instead of contributing zero
candidates. -/
theorem extract_total_counterexample :
    extract_downloads [("files", JVal.num 5)] 0 = .error .typeErr := by rfl

/-- C7 (amended).  Extraction never raises on a well-shaped record: every
truthy URL field value a string, and the files chain a list of dicts with
string URL chains.  Absent or wrong-shaped "versions"/"derived_media"
fields still contribute zero candidates without raising (their isinstance
guards), but a truthy wrong-shaped "files"/"media_files" value or a truthy
non-string URL value raises. -/
theorem extract_total_amended :
    ∀ (media : List (String × JVal)) (now : Int),
      wellShaped media = true →
      (extract_downloads media now).isOk = true := by
  intro media now h
  simp only [wellShaped, Bool.and_eq_true] at h
  obtain ⟨⟨⟨⟨h1, h2⟩, h3⟩, h4⟩, h5⟩ := h
  obtain ⟨c1, hc1⟩ := @add_candidate_ok media now _ h1
  obtain ⟨c2, hc2⟩ := @add_candidate_ok media now _ h2
  obtain ⟨c3, hc3⟩ := @add_candidate_ok media now _ h3
  have ht1 : tier1 media now = .ok (c1 ++ c2 ++ c3) := by
    simp [tier1, hc1, hc2, hc3, bind, Except.bind, pure, Except.pure]
  obtain ⟨c4, ht2⟩ := @tier2_ok media now h4
  obtain ⟨c5, ht3⟩ := @tier3_ok media now h5
  simp [extract_downloads, extract_raw, ht1, ht2, ht3, bind, Except.bind,
    pure, Except.pure, Except.isOk, Except.toBool]

/-- Closed witness for the amended C7: a record with a string URL, a falsy
files field and a wrong-shaped (string) versions field extracts without
raising. -/
theorem extract_total_amended_witness :
    (extract_downloads
      [("url", .str "https://h.example/w.mp4"), ("files", .null),
       ("versions", .str "nope")] 0).isOk = true :=
  extract_total_amended _ 0 (by rfl)

lemma fetch_finish_waited (r : ApiResponse) (w a : Nat) :
    (fetch_finish r w a).waited = w ∧ (fetch_finish r w a).attempts = a := by
  constructor <;>
    (unfold fetch_finish
     split
     · rfl
     · dsimp only
       split <;> rfl)

lemma fetch_page_429 {oracle : Nat → ApiResponse} {w : Int}
    (h429 : (oracle 0).status = 429)
    (hw : pyIntParse (((oracle 0).retryAfter).getD "5") = some w)
    (hge : 0 ≤ w) :
    fetch_page oracle = fetch_finish (oracle 1) w.toNat 2 := by
  have hlt : ¬(w < 0) := by omega
  simp [fetch_page, h429, hw, hlt]

/-- C3.  Rate-limit retry policy of `fetch_page`: on a 429 first response
with a parseable non-negative Retry-After (default "5" when the header is
absent) the fetcher sleeps exactly the advised duration and issues exactly
one retry (two GETs in total); if the retry succeeds its unwrapped record
list is returned, and if the retry fails, that failure propagates with no
further retries. -/
theorem fetch_rate_limit_retry :
    ∀ (oracle : Nat → ApiResponse),
      (oracle 0).status = 429 →
      (∀ w : Int, pyIntParse (((oracle 0).retryAfter).getD "5") = some w →
        0 ≤ w →
        (fetch_page oracle).attempts = 2 ∧ (fetch_page oracle).waited = w.toNat) ∧
      ((oracle 0).retryAfter = none →
        (fetch_page oracle).waited = 5 ∧ (fetch_page oracle).attempts = 2) ∧
      (∀ (w : Int) (l : List JVal),
        pyIntParse (((oracle 0).retryAfter).getD "5") = some w → 0 ≤ w →
        raisesForStatus (oracle 1).status = false →
        unwrap_records
          (if (oracle 1).body.truthy then (oracle 1).body else .obj []) = .ok l →
        (fetch_page oracle).result = .ok l) ∧
      (∀ w : Int,
        pyIntParse (((oracle 0).retryAfter).getD "5") = some w → 0 ≤ w →
        raisesForStatus (oracle 1).status = true →
        (fetch_page oracle).result = .error (.http (oracle 1).status)) := by
  intro oracle h429
  refine ⟨fun w hw hge => ?_, fun hnone => ?_, fun w l hw hge hrs hun => ?_,
    fun w hw hge hrs => ?_⟩
  · rw [fetch_page_429 h429 hw hge]
    exact ⟨(fetch_finish_waited _ _ _).2, (fetch_finish_waited _ _ _).1⟩
  · have hw : pyIntParse (((oracle 0).retryAfter).getD "5") = some 5 := by
      rw [hnone]; rfl
    rw [fetch_page_429 h429 hw (by decide)]
    exact ⟨(fetch_finish_waited _ _ _).1, (fetch_finish_waited _ _ _).2⟩
  · rw [fetch_page_429 h429 hw hge]
    simp [fetch_finish, hrs, hun]
  · rw [fetch_page_429 h429 hw hge]
    simp [fetch_finish, hrs]

/-- Attempt-indexed oracle for the C3 witness: first response is a 429 with
Retry-After 2, second is a 200 with one record. -/
def oracleC3 : Nat → ApiResponse := fun i =>
  if i = 0 then ⟨429, some "2", .null⟩
  else ⟨200, none, .obj [("media", .arr [.str "rec1"])]⟩

/-- Closed witness for C3: the 429-then-success fetch issues two GETs,
waits 2 time units, and returns the one record exactly once. -/
theorem fetch_rate_limit_retry_witness :
    (fetch_page oracleC3).attempts = 2 ∧ (fetch_page oracleC3).waited = 2 ∧
    (fetch_page oracleC3).result = .ok [.str "rec1"] := by
  have h := fetch_rate_limit_retry oracleC3 (by rfl)
  exact ⟨(h.1 2 (by rfl) (by decide)).1, (h.1 2 (by rfl) (by decide)).2,
    h.2.2.1 2 [.str "rec1"] (by rfl) (by decide) (by rfl) (by rfl)⟩

lemma enum_loop_step_empty {fetch : Nat → FetchRes} {maxPages : Option Nat}
    {out_dir : FPath} {now : Int} {page fuel : Nat}
    (hcap : capActive maxPages page = false)
    (hf : fetch page = .records []) :
    enum_loop fetch maxPages out_dir now page (fuel + 1) = ⟨1, [], [], .emptyPage⟩ := by
  conv_lhs => rw [enum_loop]
  simp [hcap, hf]

lemma enum_loop_step_nonempty {fetch : Nat → FetchRes} {maxPages : Option Nat}
    {out_dir : FPath} {now : Int} {page fuel : Nat} {m : JVal} {ms : List JVal}
    {js : List (String × FPath)}
    (hcap : capActive maxPages page = false)
    (hf : fetch page = .records (m :: ms))
    (hjs : process_page out_dir now (m :: ms) = .ok js) :
    enum_loop fetch maxPages out_dir now page (fuel + 1) =
      ⟨(enum_loop fetch maxPages out_dir now (page + 1) fuel).calls + 1,
       (m :: ms) ++ (enum_loop fetch maxPages out_dir now (page + 1) fuel).records,
       js ++ (enum_loop fetch maxPages out_dir now (page + 1) fuel).jobs,
       (enum_loop fetch maxPages out_dir now (page + 1) fuel).stop⟩ := by
  conv_lhs => rw [enum_loop]
  simp [hcap, hf, hjs]

lemma enum_loop_pages :
    ∀ (pages : List (List JVal)) (fetch : Nat → FetchRes) (out_dir : FPath)
      (now : Int) (start : Nat),
      (∀ p ∈ pages, p ≠ []) →
      (∀ (i : Nat) (h : i < pages.length), fetch (start + i) = .records pages[i]) →
      fetch (start + pages.length) = .records [] →
      (∀ p ∈ pages, ∃ js, process_page out_dir now p = .ok js) →
      (enum_loop fetch none out_dir now start (pages.length + 1)).calls =
          pages.length + 1 ∧
      (enum_loop fetch none out_dir now start (pages.length + 1)).records =
          pages.flatten ∧
      (enum_loop fetch none out_dir now start (pages.length + 1)).stop =
          .emptyPage := by
  intro pages
  induction pages with
  | nil =>
    intro fetch out_dir now start _ _ hempty _
    have h0 : fetch start = .records [] := by simpa using hempty
    have hcap : capActive (none : Option Nat) start = false := rfl
    rw [enum_loop_step_empty hcap h0]
    exact ⟨rfl, rfl, rfl⟩
  | cons p ps ih =>
    intro fetch out_dir now start hne hfetch hempty hproc
    have hp0 : fetch start = .records p := by simpa using hfetch 0 (by simp)
    obtain ⟨m, ms, rfl⟩ : ∃ m ms, p = m :: ms := by
      cases p with
      | nil => exact absurd rfl (hne [] (List.mem_cons_self _ _))
      | cons m ms => exact ⟨m, ms, rfl⟩
    obtain ⟨js, hjs⟩ := hproc _ (List.mem_cons_self _ _)
    have ihres := ih fetch out_dir now (start + 1)
      (fun q hq => hne q (List.mem_cons_of_mem _ hq))
      (fun i h => by
        have h2 := hfetch (i + 1) (by simpa using Nat.succ_lt_succ h)
        have harith : start + (i + 1) = start + 1 + i := by omega
        rw [harith] at h2
        simpa using h2)
      (by
        have h2 := hempty
        have harith2 : start + ((m :: ms) :: ps).length = start + 1 + ps.length := by
          simp [List.length_cons]; omega
        rw [harith2] at h2
        exact h2)
      (fun q hq => hproc q (List.mem_cons_of_mem _ hq))
    have hfuel : ((m :: ms) :: ps).length + 1 = (ps.length + 1) + 1 := by simp
    have hcap : capActive (none : Option Nat) start = false := rfl
    rw [hfuel, enum_loop_step_nonempty hcap hp0 hjs]
    refine ⟨?_, ?_, ?_⟩
    · simp [ihres.1]
    · simp [ihres.2.1]
    · simpa using ihres.2.2

/-- C2.  Pagination termination: when the fetch oracle returns N non-empty
pages (of records the extractor handles) followed by one empty page and no
page cap is in effect, the enumeration loop of `main` issues exactly N + 1
fetch calls, enumerates exactly the N pages' records in order, and stops
without error on the empty page. -/
theorem pagination_termination :
    ∀ (pages : List (List JVal)) (fetch : Nat → FetchRes) (out_dir : FPath)
      (now : Int),
      (∀ p ∈ pages, p ≠ []) →
      (∀ (i : Nat) (h : i < pages.length), fetch (1 + i) = .records pages[i]) →
      fetch (1 + pages.length) = .records [] →
      (∀ p ∈ pages, ∃ js, process_page out_dir now p = .ok js) →
      (enum_loop fetch none out_dir now 1 (pages.length + 1)).calls =
          pages.length + 1 ∧
      (enum_loop fetch none out_dir now 1 (pages.length + 1)).records =
          pages.flatten ∧
      (enum_loop fetch none out_dir now 1 (pages.length + 1)).stop = .emptyPage :=
  fun pages fetch out_dir now hne hfetch hempty hproc =>
    enum_loop_pages pages fetch out_dir now 1 hne hfetch hempty hproc

/-- Two non-empty pages for the C2 witness. -/
def pagesC2 : List (List JVal) :=
  [[.obj [("url", .str "https://h.example/p1.mp4")]],
   [.obj [("url", .str "https://h.example/p2.mp4")]]]

/-- Page-indexed fetch oracle for the C2 witness: pages 1 and 2 are
non-empty, every later page is empty. -/
def fetchC2 : Nat → FetchRes := fun i =>
  if i = 1 then .records [.obj [("url", .str "https://h.example/p1.mp4")]]
  else if i = 2 then .records [.obj [("url", .str "https://h.example/p2.mp4")]]
  else .records []

/-- Closed witness for C2: two non-empty pages then an empty one yield three
fetch calls, both records, and a clean empty-page stop. -/
theorem pagination_termination_witness :
    (enum_loop fetchC2 none ["out"] 0 1 3).calls = 3 ∧
    (enum_loop fetchC2 none ["out"] 0 1 3).records =
      [JVal.obj [("url", .str "https://h.example/p1.mp4")],
       JVal.obj [("url", .str "https://h.example/p2.mp4")]] ∧
    (enum_loop fetchC2 none ["out"] 0 1 3).stop = .emptyPage := by
  have h := pagination_termination pagesC2 fetchC2 ["out"] 0
    (by
      intro p hp
      simp only [pagesC2, List.mem_cons, List.not_mem_nil, or_false] at hp
      rcases hp with rfl | rfl <;> simp)
    (by
      intro i hi
      have h2 : i < 2 := by simpa [pagesC2] using hi
      interval_cases i <;> rfl)
    (by rfl)
    (by
      intro p hp
      simp only [pagesC2, List.mem_cons, List.not_mem_nil, or_false] at hp
      rcases hp with rfl | rfl
      · exact ⟨[("https://h.example/p1.mp4", ["out", "p1.mp4"])], rfl⟩
      · exact ⟨[("https://h.example/p2.mp4", ["out", "p2.mp4"])], rfl⟩)
  have hlen : pagesC2.length + 1 = 3 := by rfl
  rw [hlen] at h
  exact ⟨h.1, by rw [h.2.1]; rfl, h.2.2⟩
